import Mathlib

/-!
Verification development for the AutoThreatAI streaming front-end
(`src/app/frontend/js/main.js`).

The JavaScript source is shallowly embedded: strings are `List Char`,
JSON values are an inductive `Json` with an executable parser mirroring
`JSON.parse`, and the mutable page state (agent statuses, accumulated
report, PDF path, report display area) is a record `St` threaded through
pure functions.  A thrown JavaScript exception is modelled as a `Bool`
flag paired with the state at the throw point.
-/

/-! ## String helpers (JavaScript string operations on `List Char`) -/

/-- Character list of a string literal. -/
def sl (s : String) : List Char := s.toList

/-- Prefix test, mirroring `String.prototype.startsWith`. -/
def startsWithL : List Char → List Char → Bool
  | [], _ => true
  | _ :: _, [] => false
  | p :: ps, c :: cs => p == c && startsWithL ps cs

/-- Suffix test, mirroring `String.prototype.endsWith`. -/
def endsWithL (p s : List Char) : Bool :=
  startsWithL p.reverse s.reverse

/-- Substring test, mirroring `String.prototype.includes`. -/
def containsSub (n : List Char) : List Char → Bool
  | [] => startsWithL n []
  | c :: cs => startsWithL n (c :: cs) || containsSub n cs

/-- Whitespace recognized by `String.prototype.trim` (the characters that can
occur in this protocol's lines). -/
def isTrimWs (c : Char) : Bool :=
  c = ' ' || c = '\t' || c = '\n' || c = '\r' || c = '\x0b' || c = '\x0c'

/-- Both-ends trim, mirroring `String.prototype.trim`. -/
def trimL (s : List Char) : List Char :=
  ((s.dropWhile isTrimWs).reverse.dropWhile isTrimWs).reverse

/-- Lower-casing, mirroring `String.prototype.toLowerCase` on ASCII. -/
def toLowerL (s : List Char) : List Char := s.map Char.toLower

/-! ## JSON values and a total parser mirroring `JSON.parse` -/

/-- JSON values as produced by `JSON.parse`.  Numbers keep their raw source
characters (the code never computes with them).  Object fields are kept in
first-occurrence order with last-value-wins on duplicate keys, matching
JavaScript object semantics. -/
inductive Json where
  | null : Json
  | bool : Bool → Json
  | num : List Char → Json
  | str : List Char → Json
  | arr : List Json → Json
  | obj : List (List Char × Json) → Json
deriving Repr

/-- Field lookup in an object's field list. -/
def lookupF : List (List Char × Json) → List Char → Option Json
  | [], _ => none
  | (k', v) :: rest, k => if k' == k then some v else lookupF rest k

/-- Property access `j.k`, mirroring JavaScript member access on a parsed
value: defined (`some`) only on objects that carry the key. -/
def Json.getF (j : Json) (k : List Char) : Option Json :=
  match j with
  | .obj fields => lookupF fields k
  | _ => none

/-- Insert a field, overwriting in place on a duplicate key (JavaScript
object literal semantics used by `JSON.parse`). -/
def insertField (fields : List (List Char × Json)) (k : List Char) (v : Json) :
    List (List Char × Json) :=
  match fields with
  | [] => [(k, v)]
  | (k', v') :: rest =>
    if k' == k then (k', v) :: rest else (k', v') :: insertField rest k v

/-- JSON whitespace. -/
def isJsonWs (c : Char) : Bool :=
  c = ' ' || c = '\t' || c = '\n' || c = '\r'

/-- Skip JSON whitespace. -/
def skipWs (s : List Char) : List Char := s.dropWhile isJsonWs

/-- Hex digit test for string escapes. -/
def isHexC (c : Char) : Bool :=
  c.isDigit || ('a' ≤ c && c ≤ 'f') || ('A' ≤ c && c ≤ 'F')

/-- Value of a hex digit. -/
def hexVal (c : Char) : Nat :=
  if c.isDigit then c.toNat - 48
  else if 'a' ≤ c then c.toNat - 87
  else c.toNat - 55

/-- Parse the body of a JSON string after the opening quote; returns the
decoded characters and the rest of the input after the closing quote.
Fueled to keep the definition structurally total. -/
def parseStringBody : Nat → List Char → Option (List Char × List Char)
  | 0, _ => none
  | _ + 1, [] => none
  | fuel + 1, c :: rest =>
    if c = '"' then some ([], rest)
    else if c = '\\' then
      match rest with
      | [] => none
      | e :: rest2 =>
        let dec : Option (Char × List Char) :=
          if e = '"' then some ('"', rest2)
          else if e = '\\' then some ('\\', rest2)
          else if e = '/' then some ('/', rest2)
          else if e = 'b' then some ('\x08', rest2)
          else if e = 'f' then some ('\x0c', rest2)
          else if e = 'n' then some ('\n', rest2)
          else if e = 'r' then some ('\r', rest2)
          else if e = 't' then some ('\t', rest2)
          else if e = 'u' then
            match rest2 with
            | h1 :: h2 :: h3 :: h4 :: r =>
              if isHexC h1 && isHexC h2 && isHexC h3 && isHexC h4 then
                some (Char.ofNat
                  (((hexVal h1 * 16 + hexVal h2) * 16 + hexVal h3) * 16 + hexVal h4), r)
              else none
            | _ => none
          else none
        match dec with
        | some (ch, r) =>
          match parseStringBody fuel r with
          | some (cs, rest') => some (ch :: cs, rest')
          | none => none
        | none => none
    else if c.toNat < 32 then none
    else
      match parseStringBody fuel rest with
      | some (cs, rest') => some (c :: cs, rest')
      | none => none

/-- Split a leading run of decimal digits. -/
def digitsOf (s : List Char) : List Char × List Char :=
  (s.takeWhile Char.isDigit, s.dropWhile Char.isDigit)

/-- Parse the optional exponent part of a JSON number. -/
def parseExpPart (acc : List Char) (s : List Char) : Option (List Char × List Char) :=
  match s with
  | c :: r =>
    if c = 'e' || c = 'E' then
      let (sgn, r2) :=
        match r with
        | '+' :: rr => (['+'], rr)
        | '-' :: rr => (['-'], rr)
        | _ => (([] : List Char), r)
      let (ds, r3) := digitsOf r2
      if ds.isEmpty then none else some (acc ++ c :: (sgn ++ ds), r3)
    else some (acc, s)
  | [] => some (acc, [])

/-- Parse the optional fraction part of a JSON number, then the exponent. -/
def parseFrac (acc : List Char) (s : List Char) : Option (List Char × List Char) :=
  match s with
  | '.' :: r =>
    let (ds, r2) := digitsOf r
    if ds.isEmpty then none else parseExpPart (acc ++ '.' :: ds) r2
  | _ => parseExpPart acc s

/-- Parse a JSON number starting at the head of the input; returns the raw
consumed characters and the rest. -/
def parseNumber (s : List Char) : Option (List Char × List Char) :=
  let (minus, s1) :=
    match s with
    | '-' :: r => ((['-'] : List Char), r)
    | _ => (([] : List Char), s)
  match s1 with
  | c :: r =>
    if c = '0' then parseFrac (minus ++ ['0']) r
    else if c.isDigit then
      let (ds, r2) := digitsOf (c :: r)
      parseFrac (minus ++ ds) r2
    else none
  | [] => none

mutual

/-- Parse one JSON value (after skipping leading whitespace), mirroring
`JSON.parse`'s grammar.  Fuel bounds the recursion; every recursive call
consumes at least one character, so a fuel of input length + 2 is always
sufficient. -/
def parseVal : Nat → List Char → Option (Json × List Char)
  | 0, _ => none
  | fuel + 1, s =>
    match skipWs s with
    | [] => none
    | c :: r =>
      if c = '\x7b' then parseObjBody fuel r [] true
      else if c = '[' then parseArrBody fuel r [] true
      else if c = '"' then
        match parseStringBody (r.length + 1) r with
        | some (cs, rest) => some (.str cs, rest)
        | none => none
      else if startsWithL (sl "true") (c :: r) then
        some (.bool true, (c :: r).drop 4)
      else if startsWithL (sl "false") (c :: r) then
        some (.bool false, (c :: r).drop 5)
      else if startsWithL (sl "null") (c :: r) then
        some (.null, (c :: r).drop 4)
      else
        match parseNumber (c :: r) with
        | some (raw, rest) => some (.num raw, rest)
        | none => none

/-- Parse object members after `{` (when `first` is true) or after a comma. -/
def parseObjBody : Nat → List Char → List (List Char × Json) → Bool →
    Option (Json × List Char)
  | 0, _, _, _ => none
  | fuel + 1, s, acc, first =>
    match skipWs s with
    | [] => none
    | c :: r =>
      if c = '}' then
        if first then some (.obj acc, r) else none
      else if c = '"' then
        match parseStringBody (r.length + 1) r with
        | some (key, rest) =>
          (match skipWs rest with
           | ':' :: r2 =>
             match parseVal fuel r2 with
             | some (v, rest2) =>
               let acc' := insertField acc key v
               (match skipWs rest2 with
                | ',' :: r3 => parseObjBody fuel r3 acc' false
                | '\x7d' :: r3 => some (.obj acc', r3)
                | _ => none)
             | none => none
           | _ => none)
        | none => none
      else none

/-- Parse array elements after `[` (when `first` is true) or after a comma. -/
def parseArrBody : Nat → List Char → List Json → Bool → Option (Json × List Char)
  | 0, _, _, _ => none
  | fuel + 1, s, acc, first =>
    match skipWs s with
    | c :: _ =>
      if c = ']' && first then some (.arr acc, (skipWs s).drop 1)
      else
        match parseVal fuel (skipWs s) with
        | some (v, rest) =>
          (match skipWs rest with
           | ',' :: r2 => parseArrBody fuel r2 (acc ++ [v]) false
           | ']' :: r2 => some (.arr (acc ++ [v]), r2)
           | _ => none)
        | none => none
    | [] => none

end

/-- Full-input JSON parse, mirroring `JSON.parse`: the whole input must be
one JSON value, up to surrounding whitespace; `none` models the thrown
`SyntaxError`. -/
def parseJsonStr (s : List Char) : Option Json :=
  match parseVal (s.length + 2) s with
  | some (v, rest) => if (skipWs rest).isEmpty then some v else none
  | none => none

/-! ## Stages, statuses, and page state -/

/-- The five fixed pipeline stages (UI agent ids). -/
inductive Stage where
  | orchestrator | parser | modeler | builder | verifier
deriving DecidableEq, Repr

/-- Per-stage status.  The source stores the strings `'waiting'`, `'active'`,
`'completed'`; the spec calls `waiting` "not-started". -/
inductive Status where
  | waiting | active | completed
deriving DecidableEq, Repr

/-- The `agentStatuses` map restricted to the five tracked agent cards. -/
structure Statuses where
  orchestrator : Status
  parser : Status
  modeler : Status
  builder : Status
  verifier : Status
deriving DecidableEq, Repr

/-- Read one stage's status. -/
def Statuses.get (st : Statuses) : Stage → Status
  | .orchestrator => st.orchestrator
  | .parser => st.parser
  | .modeler => st.modeler
  | .builder => st.builder
  | .verifier => st.verifier

/-- Write one stage's status (the effect of `setAgentStatus` on
`agentStatuses`). -/
def Statuses.set (st : Statuses) : Stage → Status → Statuses
  | .orchestrator, v => { st with orchestrator := v }
  | .parser, v => { st with parser := v }
  | .modeler, v => { st with modeler := v }
  | .builder, v => { st with builder := v }
  | .verifier, v => { st with verifier := v }

/-- All stages waiting, the state after `resetAllAgents`. -/
def allWaiting : Statuses := ⟨.waiting, .waiting, .waiting, .waiting, .waiting⟩

/-- Contents of the `report-content` display area, abstracted to the three
shapes the code writes. -/
inductive Display where
  | placeholder
  | errorText (msg : List Char)
  | html (content : List Char)
deriving Repr

/-- The mutable page state the streaming pipeline reads and writes:
`agentStatuses`, `fullReport`, `pdfFilePath`, and the report display area. -/
structure St where
  statuses : Statuses
  fullReport : List Char
  pdfFilePath : Option Json
  display : Display
deriving Repr

/-- A fresh page state. -/
def initSt : St := ⟨allWaiting, [], none, .placeholder⟩

/-! ## Agent resolution (`processStreamEvent`, lines 372-391) -/

/-- The static `AGENT_MAPPING` table: exact ADK author names to UI ids. -/
def agentMapping (author : List Char) : Option (List Char) :=
  if author == sl "threat_model_orchestrator" then some (sl "orchestrator")
  else if author == sl "architecture_parser_agent" then some (sl "parser")
  else if author == sl "threat_modeler_agent" then some (sl "modeler")
  else if author == sl "report_builder_agent" then some (sl "builder")
  else if author == sl "report_verifier_agent" then some (sl "verifier")
  else none

/-- Resolve an author name to a UI agent id: exact `AGENT_MAPPING` lookup,
else the fuzzy substring rules on the lower-cased author, else the
lower-cased author itself. -/
def resolveAgentId (author : List Char) : List Char :=
  match agentMapping author with
  | some id => id
  | none =>
    let al := toLowerL author
    if containsSub (sl "parser") al || containsSub (sl "architecture") al then
      sl "parser"
    else if containsSub (sl "modeler") al ||
        (containsSub (sl "threat") al && !containsSub (sl "orchestr") al) then
      sl "modeler"
    else if containsSub (sl "builder") al || containsSub (sl "content") al ||
        (containsSub (sl "report") al && !containsSub (sl "verif") al) then
      sl "builder"
    else if containsSub (sl "verifier") al || containsSub (sl "verification") al ||
        containsSub (sl "escalation") al then
      sl "verifier"
    else if containsSub (sl "orchestrator") al || containsSub (sl "orchestrat") al then
      sl "orchestrator"
    else al

/-- Modelled from the spec: the repository ships only `main.js`; the HTML
page defining the `agent-…` cards is not under `src/`.  The spec fixes "a
fixed five-element stage enumeration {orchestrator, parser, modeler,
builder, verifier}", so `document.getElementById('agent-' + id)` succeeds
exactly for those five ids. -/
def toStage (id : List Char) : Option Stage :=
  if id == sl "orchestrator" then some .orchestrator
  else if id == sl "parser" then some .parser
  else if id == sl "modeler" then some .modeler
  else if id == sl "builder" then some .builder
  else if id == sl "verifier" then some .verifier
  else none

/-- The static `AGENT_SEQUENCE` ordering. -/
def agentSequence : List Stage :=
  [.orchestrator, .parser, .modeler, .builder, .verifier]

/-- Value of `AGENT_SEQUENCE.indexOf` on a resolved stage. -/
def stageIndex : Stage → Nat
  | .orchestrator => 0
  | .parser => 1
  | .modeler => 2
  | .builder => 3
  | .verifier => 4

/-- The statically known successor used for speculative activation:
`AGENT_SEQUENCE[currentIndex + 1]` when `currentIndex < length - 1`. -/
def nextAgent (g : Stage) : Option Stage :=
  if stageIndex g + 1 < agentSequence.length then agentSequence[stageIndex g + 1]?
  else none

/-! ## JavaScript value coercions -/

/-- JavaScript truthiness of a parsed JSON value. -/
def jsTruthy : Json → Bool
  | .null => false
  | .bool b => b
  | .str s => !s.isEmpty
  | .num raw =>
    -- a number is falsy iff it is zero: no nonzero digit in the mantissa
    !((raw.takeWhile (fun c => c ≠ 'e' && c ≠ 'E')).all
        (fun c => !c.isDigit || c = '0'))
  | .arr _ => true
  | .obj _ => true

mutual

/-- JavaScript string coercion of a parsed JSON value, as used by
`fullReport += text` when a content fragment is not a string. -/
def jsToStr : Json → List Char
  | .str s => s
  | .num raw => raw
  | .bool true => sl "true"
  | .bool false => sl "false"
  | .null => sl "null"
  | .arr xs => jsToStrList xs
  | .obj _ => sl "[object Object]"

/-- Array-to-string coercion: elements joined by commas, `null` elements
becoming empty. -/
def jsToStrList : List Json → List Char
  | [] => []
  | [Json.null] => []
  | [x] => jsToStr x
  | Json.null :: xs => ',' :: jsToStrList xs
  | x :: xs => jsToStr x ++ ',' :: jsToStrList xs

end

/-- Recognized terminal `finishReason` codes (strict string equality). -/
def isFinish (ev : Json) : Bool :=
  match ev.getF (sl "finishReason") with
  | some (.str f) =>
    f == sl "STOP" || f == sl "DONE" || f == sl "MAX_TOKENS"
  | _ => false

/-! ## `processStreamEvent` (lines 370-493), section by section

Each section is a function `St → St × Bool`; the `Bool` is true when the
JavaScript section would throw, and the returned state is the state at the
throw point.  Sections are chained with short-circuiting, mirroring
exception propagation out of `processStreamEvent`. -/

/-- Guarded promotion `if (x !== 'active' && x !== 'completed') set active`
used at the speculative-activation sites. -/
def promoteIfIdle (st : Statuses) (g : Stage) : Statuses :=
  if st.get g != Status.active && st.get g != Status.completed then
    st.set g .active
  else st

/-- Author section (lines 372-419): resolve the author to an agent card,
then either mark it completed (recognized `finishReason`, with speculative
activation of the next agent) or mark it active on first sighting.
A truthy non-string author throws on `.toLowerCase()`. -/
def authorSection (ev : Json) (s : St) : St × Bool :=
  match ev.getF (sl "author") with
  | some a =>
    if jsTruthy a then
      match a with
      | .str auth =>
        match toStage (resolveAgentId auth) with
        | some g =>
          if isFinish ev then
            let st1 := s.statuses.set g .completed
            let st2 :=
              match nextAgent g with
              | some y => promoteIfIdle st1 y
              | none => st1
            ({ s with statuses := st2 }, false)
          else
            ({ s with statuses := promoteIfIdle s.statuses g }, false)
        | none => (s, false)
      | _ => (s, true)
    else (s, false)
  | none => (s, false)

/-- Verification-loop section (lines 422-428): an author containing the
verification-loop markers promotes builder to active. -/
def verifLoopSection (ev : Json) (s : St) : St × Bool :=
  match ev.getF (sl "author") with
  | some a =>
    if jsTruthy a then
      match a with
      | .str auth =>
        if containsSub (sl "verification_loop") auth ||
            containsSub (sl "verification-loop") auth then
          ({ s with statuses := promoteIfIdle s.statuses .builder }, false)
        else (s, false)
      | _ => (s, true)
    else (s, false)
  | none => (s, false)

/-- Loop body of the builder-tool section: a tool call whose name contains
`write_file` or `convert_markdown` promotes builder.  A `null` element or a
truthy non-string name throws. -/
def toolPromoteLoop : List Json → St → St × Bool
  | [], s => (s, false)
  | tc :: rest, s =>
    match tc with
    | .null => (s, true)
    | .obj _ =>
      match tc.getF (sl "name") with
      | some nv =>
        if jsTruthy nv then
          match nv with
          | .str n =>
            if containsSub (sl "write_file") n ||
                containsSub (sl "convert_markdown") n then
              toolPromoteLoop rest
                { s with statuses := promoteIfIdle s.statuses .builder }
            else toolPromoteLoop rest s
          | _ => (s, true)
        else toolPromoteLoop rest s
      | none => toolPromoteLoop rest s
    | _ => toolPromoteLoop rest s

/-- Builder-tool section (lines 431-441): iterate `actions.toolCalls`.
A truthy non-array, non-string `toolCalls` value is not iterable and
throws; a string iterates characters and is a no-op. -/
def toolPromoteSection (ev : Json) (s : St) : St × Bool :=
  match ev.getF (sl "actions") with
  | some actions =>
    if jsTruthy actions then
      match actions.getF (sl "toolCalls") with
      | some tcs =>
        if jsTruthy tcs then
          match tcs with
          | .arr xs => toolPromoteLoop xs s
          | .str _ => (s, false)
          | _ => (s, true)
        else (s, false)
      | none => (s, false)
    else (s, false)
  | none => (s, false)

/-- Loop body of the artifact-delta section: a key ending in `.pdf` stores
`artifact.filePath || filename` into `pdfFilePath`.  A `null` artifact
value throws on `.filePath`. -/
def artifactLoop : List (List Char × Json) → St → St × Bool
  | [], s => (s, false)
  | (fname, art) :: rest, s =>
    if endsWithL (sl ".pdf") fname then
      match art with
      | .null => (s, true)
      | .obj _ =>
        match art.getF (sl "filePath") with
        | some fp =>
          if jsTruthy fp then artifactLoop rest { s with pdfFilePath := some fp }
          else artifactLoop rest { s with pdfFilePath := some (.str fname) }
        | none => artifactLoop rest { s with pdfFilePath := some (.str fname) }
      | _ => artifactLoop rest { s with pdfFilePath := some (.str fname) }
    else artifactLoop rest s

/-- Artifact-delta section (lines 444-453): `Object.entries` of
`actions.artifactDelta`.  `Object.entries` on a truthy non-object yields
no `.pdf` keys, so only an object does anything. -/
def artifactSection (ev : Json) (s : St) : St × Bool :=
  match ev.getF (sl "actions") with
  | some actions =>
    if jsTruthy actions then
      match actions.getF (sl "artifactDelta") with
      | some ad =>
        if jsTruthy ad then
          match ad with
          | .obj fields => artifactLoop fields s
          | _ => (s, false)
        else (s, false)
      | none => (s, false)
    else (s, false)
  | none => (s, false)

/-- Loop body collecting text from `content.parts`: `part.text` is appended
when truthy; a `null` part throws on `.text`. -/
def partsLoop : List Json → List Char → List Char × Bool
  | [], acc => (acc, false)
  | p :: rest, acc =>
    match p with
    | .null => (acc, true)
    | .obj _ =>
      match p.getF (sl "text") with
      | some t =>
        if jsTruthy t then partsLoop rest (acc ++ jsToStr t)
        else partsLoop rest acc
      | none => partsLoop rest acc
    | _ => partsLoop rest acc

/-- Append accumulated text to `fullReport` when nonempty (`if (text)`). -/
def appendReport (s : St) (t : List Char) : St :=
  if t.isEmpty then s else { s with fullReport := s.fullReport ++ t }

/-- Fallback `event.content.text` branch of the content section. -/
def contentTextBranch (c : Json) (s : St) : St × Bool :=
  match c.getF (sl "text") with
  | some t => if jsTruthy t then (appendReport s (jsToStr t), false) else (s, false)
  | none => (s, false)

/-- Content section (lines 456-477): accumulate text fragments from the
three accepted content shapes.  A truthy non-array, non-string `parts`
value is not iterable and throws. -/
def contentSection (ev : Json) (s : St) : St × Bool :=
  match ev.getF (sl "content") with
  | some c =>
    if jsTruthy c then
      match c with
      | .str t => (appendReport s t, false)
      | .obj _ =>
        match c.getF (sl "parts") with
        | some ps =>
          if jsTruthy ps then
            match ps with
            | .arr xs =>
              (match partsLoop xs [] with
               | (txt, false) => (appendReport s txt, false)
               | (_, true) => (s, true))
            | .str _ => (s, false)
            | _ => (s, true)
          else contentTextBranch c s
        | none => contentTextBranch c s
      | _ => (s, false)
    else (s, false)
  | none => (s, false)

/-- Loop body of the PDF-tool section: on a tool call strictly named
`convert_markdown_to_pdf` with a truthy response, a string response is fed
to `JSON.parse` with no surrounding try/catch — an unparsable string
throws.  A parsed `null` throws on `.file_path`; a truthy non-string
`file_path` throws on `.endsWith`. -/
def pdfToolLoop : List Json → St → St × Bool
  | [], s => (s, false)
  | tc :: rest, s =>
    match tc with
    | .null => (s, true)
    | .obj _ =>
      match tc.getF (sl "name"), tc.getF (sl "response") with
      | some (.str n), some resp =>
        if n == sl "convert_markdown_to_pdf" && jsTruthy resp then
          let parsed : Option Json :=
            match resp with
            | .str rs => parseJsonStr rs
            | _ => some resp
          match parsed with
          | none => (s, true)
          | some v =>
            match v with
            | .null => (s, true)
            | .obj _ =>
              (match v.getF (sl "file_path") with
               | some fp =>
                 if jsTruthy fp then
                   match fp with
                   | .str f =>
                     if endsWithL (sl ".pdf") f then
                       pdfToolLoop rest { s with pdfFilePath := some (.str f) }
                     else pdfToolLoop rest s
                   | _ => (s, true)
                 else pdfToolLoop rest s
               | none => pdfToolLoop rest s)
            | _ => pdfToolLoop rest s
        else pdfToolLoop rest s
      | _, _ => pdfToolLoop rest s
    | _ => pdfToolLoop rest s

/-- PDF-tool section (lines 480-492): second pass over `actions.toolCalls`
looking for a finished document path in tool responses. -/
def pdfToolSection (ev : Json) (s : St) : St × Bool :=
  match ev.getF (sl "actions") with
  | some actions =>
    if jsTruthy actions then
      match actions.getF (sl "toolCalls") with
      | some tcs =>
        if jsTruthy tcs then
          match tcs with
          | .arr xs => pdfToolLoop xs s
          | .str _ => (s, false)
          | _ => (s, true)
        else (s, false)
      | none => (s, false)
    else (s, false)
  | none => (s, false)

/-- Run one section, then the next unless the first threw. -/
def thenSec (f g : St → St × Bool) (s : St) : St × Bool :=
  match f s with
  | (s', true) => (s', true)
  | (s', false) => g s'

/-- Sections after the author section, in source order. -/
def restSections (ev : Json) : St → St × Bool :=
  thenSec (verifLoopSection ev)
    (thenSec (toolPromoteSection ev)
      (thenSec (artifactSection ev)
        (thenSec (contentSection ev) (pdfToolSection ev))))

/-- The whole of `processStreamEvent` (lines 370-493): the six sections in
source order, with exception propagation. -/
def processStreamEvent (ev : Json) (s : St) : St × Bool :=
  thenSec (authorSection ev) (restSections ev) s

/-! ## The read loop of `streamQuery` (lines 304-358) -/

/-- Extract the complete (newline-terminated) lines at the front of the
buffer; returns the lines (without their newlines) and the retained
trailing partial line.  This is the
`while ((newlineIndex = buffer.indexOf('\n')) >= 0)` loop's effect on the
buffer. -/
def extractLines : List Char → List (List Char) × List Char
  | [] => ([], [])
  | c :: cs =>
    if c = '\n' then ([] :: (extractLines cs).1, (extractLines cs).2)
    else
      match extractLines cs with
      | ([], r) => ([], c :: r)
      | (l :: tl, r) => ((c :: l) :: tl, r)

/-- Decode one complete line into at most one event (lines 342-356):
trim, require the `data: ` prefix and a nonempty payload, then
`JSON.parse`; `none` models both "skipped" and "parse failed". -/
def decodeLine (l : List Char) : Option Json :=
  let t := trimL l
  if startsWithL (sl "data: ") t then
    let jsonStr := t.drop 6
    if jsonStr.isEmpty then none else parseJsonStr jsonStr
  else none

/-- Decoded-event sequence produced by feeding the chunks through the
buffer-and-extract-lines loop, starting from buffer `buf`. -/
def decodeChunksGo : List Char → List (List Char) → List Json
  | _, [] => []
  | buf, c :: rest =>
    let p := extractLines (buf ++ c)
    p.1.filterMap decodeLine ++ decodeChunksGo p.2 rest

/-- Decoded-event sequence of a chunked stream (fresh buffer). -/
def decodeStream (chunks : List (List Char)) : List Json :=
  decodeChunksGo [] chunks

/-- Decoded-event sequence of a whole stream's complete lines. -/
def streamEventsOf (whole : List Char) : List Json :=
  (extractLines whole).1.filterMap decodeLine

/-- Process one complete line against the page state (lines 342-357).
The try/catch around `JSON.parse` and `processStreamEvent` swallows both a
parse failure and an exception escaping `processStreamEvent`, keeping the
state as of the throw point. -/
def processLine (l : List Char) (s : St) : St :=
  let t := trimL l
  if startsWithL (sl "data: ") t then
    let jsonStr := t.drop 6
    if jsonStr.isEmpty then s
    else
      match parseJsonStr jsonStr with
      | some ev => (processStreamEvent ev s).1
      | none => s
  else s

/-- Process a batch of complete lines in order. -/
def processLines (ls : List (List Char)) (s : St) : St :=
  ls.foldl (fun s l => processLine l s) s

/-- One iteration of the read loop on a received chunk: append to the
buffer, split off complete lines, process them. -/
def stepChunk (p : List Char × St) (chunk : List Char) : List Char × St :=
  let q := extractLines (p.1 ++ chunk)
  (q.2, processLines q.1 p.2)

/-- The read loop over all received chunks. -/
def runChunks (chunks : List (List Char)) (buf : List Char) (s : St) :
    List Char × St :=
  chunks.foldl stepChunk (buf, s)

/-! ## Stream completion, run start, reset (lines 170-189, 299-332, 496-520, 622-645) -/

/-- Stream-end stage promotion (lines 315-321): every stage currently
active or completed is set to completed. -/
def finishActive (st : Statuses) : Statuses :=
  agentSequence.foldl
    (fun st g =>
      if st.get g == Status.active || st.get g == Status.completed then
        st.set g .completed
      else st)
    st

/-- Minimal markdown rendering of `updateReportDisplay`: header lines. -/
def splitNl : List Char → List (List Char)
  | [] => [[]]
  | c :: cs =>
    let r := splitNl cs
    if c = '\n' then [] :: r
    else
      match r with
      | [] => [[c]]
      | l :: tl => (c :: l) :: tl

/-- Rejoin lines with newlines. -/
def joinNl : List (List Char) → List Char
  | [] => []
  | [l] => l
  | l :: tl => l ++ '\n' :: joinNl tl

/-- Replace one header line, mirroring `^#… (.*$)` anchored at a line. -/
def hRepl (pre openT closeT line : List Char) : List Char :=
  if startsWithL pre line then openT ++ line.drop pre.length ++ closeT else line

/-- One header-replacement pass (`html.replace(/^# (.*$)/gim, …)` etc.). -/
def headerPass (pre openT closeT : List Char) (s : List Char) : List Char :=
  joinNl ((splitNl s).map (hRepl pre openT closeT))

/-- Find the earliest closing delimiter with no newline before it (the
non-greedy `(.*?)` cannot match a newline); returns the enclosed content
and the rest after the closing delimiter. -/
def findCloseL (delim : List Char) : List Char → Option (List Char × List Char)
  | [] => none
  | c :: cs =>
    if startsWithL delim (c :: cs) then some ([], (c :: cs).drop delim.length)
    else if c = '\n' then none
    else
      match findCloseL delim cs with
      | some (content, rest) => some (c :: content, rest)
      | none => none

/-- Fueled scanner for one paired-delimiter replacement pass
(`\*\*(.*?)\*\*` and friends): leftmost match start, shortest content. -/
def pairReplF (delim openT closeT : List Char) : Nat → List Char → List Char
  | 0, s => s
  | _ + 1, [] => []
  | fuel + 1, c :: cs =>
    if startsWithL delim (c :: cs) then
      match findCloseL delim ((c :: cs).drop delim.length) with
      | some (content, rest) =>
        openT ++ content ++ closeT ++ pairReplF delim openT closeT fuel rest
      | none => c :: pairReplF delim openT closeT fuel cs
    else c :: pairReplF delim openT closeT fuel cs

/-- One paired-delimiter replacement pass.  Fuel equal to the input length
suffices since every step consumes at least one character. -/
def pairRepl (delim openT closeT s : List Char) : List Char :=
  pairReplF delim openT closeT s.length s

/-- Replace every `\n\n` with `</p><p>` (leftmost, non-overlapping). -/
def nlnlRepl : List Char → List Char
  | '\n' :: '\n' :: rest => sl "</p><p>" ++ nlnlRepl rest
  | c :: cs => c :: nlnlRepl cs
  | [] => []

/-- The markdown-to-HTML conversion of `updateReportDisplay`
(lines 503-514), replacement passes in source order. -/
def mdToHtml (report : List Char) : List Char :=
  let h := headerPass (sl "# ") (sl "<h1>") (sl "</h1>") report
  let h := headerPass (sl "## ") (sl "<h2>") (sl "</h2>") h
  let h := headerPass (sl "### ") (sl "<h3>") (sl "</h3>") h
  let h := pairRepl (sl "**") (sl "<strong>") (sl "</strong>") h
  let h := pairRepl (sl "*") (sl "<em>") (sl "</em>") h
  let h := pairRepl (sl "`") (sl "<code>") (sl "</code>") h
  let h := nlnlRepl h
  sl "<p>" ++ h ++ sl "</p>"

/-- `updateReportDisplay` (lines 496-520): placeholder on a blank report,
otherwise the converted HTML. -/
def updateReportDisplay (s : St) : St :=
  if (trimL s.fullReport).isEmpty then { s with display := .placeholder }
  else { s with display := .html (mdToHtml s.fullReport) }

/-- The `done` branch of the read loop (lines 315-332): final stage
promotion, then the deferred report render. -/
def doneHandler (s : St) : St :=
  updateReportDisplay { s with statuses := finishActive s.statuses }

/-- Stream open (lines 299-309): orchestrator is set active immediately and
the display shows the processing placeholder. -/
def streamStart (s : St) : St :=
  { s with statuses := s.statuses.set .orchestrator .active,
           display := .placeholder }

/-- A successful `streamQuery` run over the received chunks: stream open,
the read loop, then the `done` branch. -/
def runStream (chunks : List (List Char)) (s : St) : St :=
  doneHandler (runChunks chunks [] (streamStart s)).2

/-- State effect of run start in `startAnalysis` (lines 177-183): clear the
report buffer, show the placeholder, reset all agents.  `pdfFilePath` is
not touched there. -/
def startAnalysisReset (s : St) : St :=
  { s with fullReport := [], display := .placeholder, statuses := allWaiting }

/-- A full run: `startAnalysis`'s reset followed by `streamQuery`. -/
def fullRun (chunks : List (List Char)) (s : St) : St :=
  runStream chunks (startAnalysisReset s)

/-- State effect of `resetAnalysis` (lines 622-645): clear the report
buffer and the PDF path, reset all agents, restore the idle placeholder. -/
def resetAnalysisState (_ : St) : St :=
  { statuses := allWaiting, fullReport := [], pdfFilePath := none,
    display := .placeholder }

/-- Errors that can reach the catch handlers around the read loop. -/
inductive StreamErr where
  | aborted
  | failure (msg : List Char)

/-- The catch in `streamQuery` (lines 360-366): an `AbortError` is
swallowed (the function returns normally), anything else is rethrown. -/
def streamQueryCatch (e : StreamErr) (s : St) : St × Option StreamErr :=
  match e with
  | .aborted => (s, none)
  | .failure m => (s, some (.failure m))

/-- The catch in `startAnalysis` (lines 225-234): an `AbortError` returns
silently; any other error is written to the report display area. -/
def startAnalysisCatch (e : StreamErr) (s : St) : St :=
  match e with
  | .aborted => s
  | .failure m => { s with display := .errorText m }

/-- Cancellation via the reset control: `resetAnalysis` aborts the pending
read and resets the page state; the read loop then observes the
`AbortError`, whose handling runs through both catch sites. -/
def cancelRun (s : St) : St :=
  let s1 := resetAnalysisState s
  match streamQueryCatch .aborted s1 with
  | (s2, none) => s2
  | (s2, some e) => startAnalysisCatch e s2

/-- Cancellation via starting a new run: `startAnalysis` (lines 177-189)
performs its run-start reset and then aborts the prior run's pending read
(lines 186-188); the cancelled run's loop observes the `AbortError`, whose
handling runs through both catch sites.  Unlike `resetAnalysis`, this path
never assigns `pdfFilePath`. -/
def cancelViaNewRun (s : St) : St :=
  let s1 := startAnalysisReset s
  match streamQueryCatch .aborted s1 with
  | (s2, none) => s2
  | (s2, some e) => startAnalysisCatch e s2

/-! ## Structural equivalence of rendered HTML (claim C9)

Modelled from the spec: the spec asserts the rendering is "a structure
equivalent to" a target fragment.  Equivalence is read as: equal DOM
forests after browser-style parsing (a heading auto-closes an open
paragraph, a stray end tag is dropped) and after discarding empty
paragraph elements. -/

/-- HTML tokens of the strings produced by `mdToHtml`. -/
inductive Tok where
  | openT (tag : List Char)
  | closeT (tag : List Char)
  | textT (s : List Char)
deriving Repr, DecidableEq

/-- Fueled tokenizer: `<…>` becomes an open/close tag token, anything else
a text run. -/
def tokenizeF : Nat → List Char → List Tok
  | 0, _ => []
  | _ + 1, [] => []
  | fuel + 1, c :: cs =>
    if c = '<' then
      let tag := cs.takeWhile (fun d => d ≠ '>')
      let rest := (cs.dropWhile (fun d => d ≠ '>')).drop 1
      (match tag with
       | '/' :: t => Tok.closeT t
       | t => Tok.openT t) :: tokenizeF fuel rest
    else
      let run := (c :: cs).takeWhile (fun d => d ≠ '<')
      Tok.textT run :: tokenizeF fuel ((c :: cs).dropWhile (fun d => d ≠ '<'))

/-- Tokenize an HTML string. -/
def tokenize (s : List Char) : List Tok := tokenizeF s.length s

/-- DOM nodes. -/
inductive Node where
  | elem (tag : List Char) (children : List Node)
  | textN (s : List Char)
deriving Repr

/-- Heading tags, which auto-close an open paragraph. -/
def isBlockTag (t : List Char) : Bool :=
  t == sl "h1" || t == sl "h2" || t == sl "h3"

/-- Attach a finished node to the innermost open element, or to the root
forest. -/
def pushNode (n : Node) :
    List (List Char × List Node) → List Node →
    List (List Char × List Node) × List Node
  | [], root => ([], root ++ [n])
  | (t, kids) :: st, root => ((t, kids ++ [n]) :: st, root)

/-- Fold a finished node outward through the remaining open elements. -/
def collapseStack (n : Node) : List (List Char × List Node) → List Node → List Node
  | [], root => root ++ [n]
  | (t, kids) :: st, root => collapseStack (Node.elem t (kids ++ [n])) st root

/-- Close every still-open element at end of input. -/
def flushStack : List (List Char × List Node) → List Node → List Node
  | [], root => root
  | (t, kids) :: st, root => collapseStack (Node.elem t kids) st root

/-- Build a DOM forest from tokens with a stack of open elements: a heading
closes an open `p`, a mismatched or stray close tag is dropped. -/
def buildGo : List Tok → List (List Char × List Node) → List Node → List Node
  | [], stack, root => flushStack stack root
  | Tok.textT s :: toks, stack, root =>
    let p := pushNode (.textN s) stack root
    buildGo toks p.1 p.2
  | Tok.openT t :: toks, stack, root =>
    if isBlockTag t then
      match stack with
      | (pt, kids) :: st =>
        if pt == sl "p" then
          let p := pushNode (.elem pt kids) st root
          buildGo toks ((t, []) :: p.1) p.2
        else buildGo toks ((t, []) :: stack) root
      | [] => buildGo toks ((t, []) :: stack) root
    else buildGo toks ((t, []) :: stack) root
  | Tok.closeT t :: toks, stack, root =>
    match stack with
    | (pt, kids) :: st =>
      if pt == t then
        let p := pushNode (.elem pt kids) st root
        buildGo toks p.1 p.2
      else buildGo toks stack root
    | [] => buildGo toks stack root

/-- Parse an HTML string into a DOM forest. -/
def buildDom (s : List Char) : List Node := buildGo (tokenize s) [] []

mutual

/-- Drop empty paragraph elements inside one node. -/
def stripNode : Node → Node
  | .elem t kids => .elem t (stripList kids)
  | .textN s => .textN s

/-- Drop empty paragraph elements from a forest, recursively. -/
def stripList : List Node → List Node
  | [] => []
  | n :: rest =>
    match stripNode n with
    | .elem t kids' =>
      if t == sl "p" && kids'.isEmpty then stripList rest
      else Node.elem t kids' :: stripList rest
    | m => m :: stripList rest

end

/-- Structural equivalence of two HTML fragments. -/
def specStructEquiv (a b : List Char) : Prop :=
  stripList (buildDom a) = stripList (buildDom b)

/-! ## Ordering of statuses and transition predicates -/

/-- Rank of a status along not-started → active → completed. -/
def srank : Status → Nat
  | .waiting => 0
  | .active => 1
  | .completed => 2

/-- Pointwise non-demotion between two status maps. -/
def StatMono (a b : Statuses) : Prop :=
  ∀ g, srank (a.get g) ≤ srank (b.get g)

/-- Every per-stage change is either a no-op or a waiting-to-active
promotion (the shape of the speculative-activation sections). -/
def OnlyProm (a b : Statuses) : Prop :=
  ∀ g, b.get g = a.get g ∨ (a.get g = .waiting ∧ b.get g = .active)

/-- Event processing for a whole run: the per-event effect of the read
loop, folded over a decoded-event sequence. -/
def runEvents (evs : List Json) (s : St) : St :=
  evs.foldl (fun s e => (processStreamEvent e s).1) s

/-! ## Concrete scenario inputs -/

/-- First frame of the C5 scenario. -/
def c5Line1 : List Char := sl "data: \x7b\"author\":\"architecture_parser_agent\"\x7d"

/-- Second frame of the C5 scenario. -/
def c5Line2 : List Char :=
  sl "data: \x7b\"author\":\"architecture_parser_agent\",\"finishReason\":\"STOP\"\x7d"

/-- The C5 scenario byte stream, fed as a single chunk. -/
def c5Chunk : List Char := c5Line1 ++ '\n' :: c5Line2 ++ ['\n']

/-- Page state of the C5 run after both frames, before stream end. -/
def c5Mid : St :=
  (runChunks [c5Chunk] [] (streamStart (startAnalysisReset initSt))).2

/-- Final page state of the C5 run. -/
def c5Final : St := fullRun [c5Chunk] initSt

/-- Well-formed frames before the malformed line of the C4 witness. -/
def c4Pre : List Char := sl "data: \x7b\"author\":\"threat_modeler_agent\"\x7d" ++ ['\n']

/-- The malformed line of the C4 witness: a `data: ` payload that is not
parseable JSON. -/
def c4Bad : List Char := sl "data: \x7bnotjson"

/-- Well-formed frames after the malformed line of the C4 witness. -/
def c4Post : List Char := sl "data: \x7b\"content\":\"B\"\x7d" ++ ['\n']

/-- An event carrying a recognized completion reason for the parser stage,
fired while the stage is still not-started. -/
def evParserStop : Json :=
  Json.obj [(sl "author", Json.str (sl "architecture_parser_agent")),
            (sl "finishReason", Json.str (sl "STOP"))]

/-- A previous-run state with a populated report buffer and artifact
pointer. -/
def c7Prev : St :=
  { initSt with fullReport := sl "old report",
                pdfFilePath := some (Json.str (sl "/tmp/report.pdf")) }

/-- The two C9 fragments as decoded content events. -/
def c9Frag1 : Json := Json.obj [(sl "content", Json.str (sl "# Title\n\n"))]

/-- Second C9 fragment. -/
def c9Frag2 : Json := Json.obj [(sl "content", Json.str (sl "**bold**"))]

/-- Page state after accumulating both C9 fragments and rendering at
stream end. -/
def c9Final : St :=
  doneHandler (processStreamEvent c9Frag2 (processStreamEvent c9Frag1 initSt).1).1

/-- The rendering target named by the C9 claim. -/
def c9Target : List Char := sl "<h1>Title</h1><p><strong>bold</strong></p>"

/-- An event whose `convert_markdown_to_pdf` tool call carries a response
string that is not valid JSON. -/
def c10BadEvent : Json :=
  Json.obj [(sl "actions",
    Json.obj [(sl "toolCalls",
      Json.arr [Json.obj [(sl "name", Json.str (sl "convert_markdown_to_pdf")),
                          (sl "response", Json.str (sl "oops"))]])])]

/-- The frame carrying `c10BadEvent`. -/
def c10BadLine : List Char :=
  sl "data: \x7b\"actions\":\x7b\"toolCalls\":[\x7b\"name\":\"convert_markdown_to_pdf\",\"response\":\"oops\"\x7d]\x7d\x7d"

/-- A three-frame stream: a well-formed frame, the throwing frame, then
another well-formed frame contributing content "A". -/
def c10Chunk : List Char :=
  c5Line1 ++ '\n' :: c10BadLine ++ '\n' :: sl "data: \x7b\"content\":\"A\"\x7d" ++ ['\n']

/-- Final page state of the C10 run. -/
def c10Final : St := fullRun [c10Chunk] initSt

/-- A mid-run state for the C1 witness: parser completed, modeler active. -/
def c1WitSt : St :=
  { initSt with statuses := { allWaiting with parser := .completed, modeler := .active } }

/-! ## Status-algebra lemmas -/

theorem srank_le_two (v : Status) : srank v ≤ 2 := by
  cases v <;> simp [srank]

theorem srank_two_imp (v : Status) (h : 2 ≤ srank v) : v = .completed := by
  cases v <;> simp [srank] at h ⊢

theorem srank_one_imp (v : Status) (h : 1 ≤ srank v) : v ≠ .waiting := by
  cases v <;> simp [srank] at h ⊢

theorem get_set (st : Statuses) (g : Stage) (v : Status) (g' : Stage) :
    (st.set g v).get g' = if g' = g then v else st.get g' := by
  cases g <;> cases g' <;> simp [Statuses.get, Statuses.set]

theorem promoteIfIdle_eq (st : Statuses) (g : Stage) :
    promoteIfIdle st g =
      if st.get g = .waiting then st.set g .active else st := by
  unfold promoteIfIdle
  rcases hsg : st.get g with _ | _ | _ <;> simp [hsg]

theorem promoteIfIdle_get (st : Statuses) (g g' : Stage) :
    (promoteIfIdle st g).get g' =
      if g' = g ∧ st.get g = .waiting then .active else st.get g' := by
  rw [promoteIfIdle_eq]
  rcases hsg : st.get g with _ | _ | _ <;>
    by_cases hgg : g' = g <;>
    simp [hsg, get_set, hgg]

theorem statMono_refl (a : Statuses) : StatMono a a := fun _ => le_refl _

theorem statMono_trans {a b c : Statuses} (h1 : StatMono a b) (h2 : StatMono b c) :
    StatMono a c := fun g => (h1 g).trans (h2 g)

theorem statMono_set_completed (st : Statuses) (g : Stage) :
    StatMono st (st.set g .completed) := by
  intro g'
  rw [get_set]
  split
  · exact srank_le_two _
  · exact le_refl _

theorem statMono_promote (st : Statuses) (g : Stage) :
    StatMono st (promoteIfIdle st g) := by
  intro g'
  rw [promoteIfIdle_get]
  split
  · rename_i h
    rw [h.1, h.2]
    simp [srank]
  · exact le_refl _

theorem onlyProm_refl (a : Statuses) : OnlyProm a a := fun _ => Or.inl rfl

theorem onlyProm_of_eq {a b : Statuses} (h : b = a) : OnlyProm a b :=
  h ▸ onlyProm_refl a

theorem onlyProm_trans {a b c : Statuses} (h1 : OnlyProm a b) (h2 : OnlyProm b c) :
    OnlyProm a c := by
  intro g
  rcases h2 g with h2g | ⟨hbw, hca⟩
  · rw [h2g]; exact h1 g
  · rcases h1 g with h1g | ⟨haw, hba⟩
    · rw [h1g] at hbw
      exact Or.inr ⟨hbw, hca⟩
    · rw [hba] at hbw
      cases hbw
  
theorem onlyProm_promote (st : Statuses) (g : Stage) :
    OnlyProm st (promoteIfIdle st g) := by
  intro g'
  rw [promoteIfIdle_get]
  split
  · rename_i h
    rcases h with ⟨he, hw⟩
    exact Or.inr ⟨he ▸ hw, rfl⟩
  · exact Or.inl rfl

theorem statMono_of_onlyProm {a b : Statuses} (h : OnlyProm a b) : StatMono a b := by
  intro g
  rcases h g with hg | ⟨hw, ha⟩
  · rw [hg]
  · rw [hw, ha]
    simp [srank]

theorem onlyProm_nonwaiting {a b : Statuses} (h : OnlyProm a b) (g : Stage)
    (hg : a.get g ≠ .waiting) : b.get g = a.get g := by
  rcases h g with hg' | ⟨hw, _⟩
  · exact hg'
  · exact absurd hw hg

/-! ## Per-section status lemmas -/

theorem statuses_appendReport (s : St) (t : List Char) :
    (appendReport s t).statuses = s.statuses := by
  unfold appendReport
  split <;> rfl

theorem statuses_artifactLoop (es : List (List Char × Json)) (s : St) :
    ((artifactLoop es s).1).statuses = s.statuses := by
  induction es generalizing s with
  | nil => rfl
  | cons e rest ih =>
    rcases e with ⟨fname, art⟩
    unfold artifactLoop
    repeat' split
    all_goals first | rfl | exact ih _

theorem statuses_artifactSection (ev : Json) (s : St) :
    ((artifactSection ev s).1).statuses = s.statuses := by
  unfold artifactSection
  repeat' split
  all_goals first | rfl | exact statuses_artifactLoop _ _

theorem statuses_contentTextBranch (c : Json) (s : St) :
    ((contentTextBranch c s).1).statuses = s.statuses := by
  unfold contentTextBranch
  repeat' split
  all_goals first | rfl | exact statuses_appendReport _ _

theorem statuses_contentSection (ev : Json) (s : St) :
    ((contentSection ev s).1).statuses = s.statuses := by
  unfold contentSection
  repeat' split
  all_goals
    first
      | rfl
      | exact statuses_appendReport _ _
      | exact statuses_contentTextBranch _ _

theorem statuses_pdfToolLoop (xs : List Json) (s : St) :
    ((pdfToolLoop xs s).1).statuses = s.statuses := by
  induction xs generalizing s with
  | nil => rfl
  | cons tc rest ih =>
    unfold pdfToolLoop
    repeat' split
    all_goals try dsimp only
    all_goals repeat' split
    all_goals first | rfl | exact ih _

theorem statuses_pdfToolSection (ev : Json) (s : St) :
    ((pdfToolSection ev s).1).statuses = s.statuses := by
  unfold pdfToolSection
  repeat' split
  all_goals first | rfl | exact statuses_pdfToolLoop _ _

theorem onlyProm_verifLoopSection (ev : Json) (s : St) :
    OnlyProm s.statuses ((verifLoopSection ev s).1).statuses := by
  unfold verifLoopSection
  repeat' split
  all_goals first | exact onlyProm_refl _ | exact onlyProm_promote _ _

theorem onlyProm_toolPromoteLoop (xs : List Json) (s : St) :
    OnlyProm s.statuses ((toolPromoteLoop xs s).1).statuses := by
  induction xs generalizing s with
  | nil => exact onlyProm_refl _
  | cons tc rest ih =>
    unfold toolPromoteLoop
    repeat' split
    all_goals
      first
        | exact onlyProm_refl _
        | exact ih _
        | exact onlyProm_trans (onlyProm_promote _ _) (ih _)

theorem onlyProm_toolPromoteSection (ev : Json) (s : St) :
    OnlyProm s.statuses ((toolPromoteSection ev s).1).statuses := by
  unfold toolPromoteSection
  repeat' split
  all_goals first | exact onlyProm_refl _ | exact onlyProm_toolPromoteLoop _ _

theorem onlyProm_thenSec (f g : St → St × Bool)
    (hf : ∀ s, OnlyProm s.statuses ((f s).1).statuses)
    (hg : ∀ s, OnlyProm s.statuses ((g s).1).statuses) (s : St) :
    OnlyProm s.statuses ((thenSec f g s).1).statuses := by
  unfold thenSec
  rcases hfs : f s with ⟨s', b⟩
  have hA := hf s
  rw [hfs] at hA
  cases b
  · exact onlyProm_trans hA (hg s')
  · exact hA

theorem onlyProm_restSections (ev : Json) (s : St) :
    OnlyProm s.statuses ((restSections ev s).1).statuses := by
  unfold restSections
  refine onlyProm_thenSec _ _ (onlyProm_verifLoopSection ev) ?_ s
  intro s1
  refine onlyProm_thenSec _ _ (onlyProm_toolPromoteSection ev) ?_ s1
  intro s2
  refine onlyProm_thenSec _ _
    (fun u => onlyProm_of_eq (statuses_artifactSection ev u)) ?_ s2
  intro s3
  exact onlyProm_thenSec _ _
    (fun u => onlyProm_of_eq (statuses_contentSection ev u))
    (fun u => onlyProm_of_eq (statuses_pdfToolSection ev u)) s3

theorem statMono_authorSection (ev : Json) (s : St) :
    StatMono s.statuses ((authorSection ev s).1).statuses := by
  unfold authorSection
  repeat' split
  all_goals try dsimp only
  all_goals
    first
      | exact statMono_refl _
      | exact statMono_trans (statMono_set_completed _ _) (statMono_promote _ _)
      | exact statMono_set_completed _ _
      | exact statMono_promote _ _

theorem statMono_processStreamEvent (ev : Json) (s : St) :
    StatMono s.statuses ((processStreamEvent ev s).1).statuses := by
  unfold processStreamEvent thenSec
  rcases hfs : authorSection ev s with ⟨s', b⟩
  have hA := statMono_authorSection ev s
  rw [hfs] at hA
  cases b
  · exact statMono_trans hA (statMono_of_onlyProm (onlyProm_restSections ev s'))
  · exact hA

theorem statMono_runEvents (evs : List Json) (s : St) :
    StatMono s.statuses (runEvents evs s).statuses := by
  induction evs generalizing s with
  | nil => exact statMono_refl _
  | cons e rest ih =>
    exact statMono_trans (statMono_processStreamEvent e s) (ih _)

theorem finishActive_get (st : Statuses) (g : Stage) :
    (finishActive st).get g =
      if st.get g = .waiting then .waiting else .completed := by
  rcases st with ⟨o, p, m, b, v⟩
  cases g <;> cases o <;> cases p <;> cases m <;> cases b <;> cases v <;> rfl

theorem statMono_finishActive (st : Statuses) : StatMono st (finishActive st) := by
  intro g
  rw [finishActive_get]
  split
  · rename_i h
    rw [h]
  · simpa [srank] using srank_le_two (st.get g)

theorem statuses_updateReportDisplay (s : St) :
    (updateReportDisplay s).statuses = s.statuses := by
  unfold updateReportDisplay
  split <;> rfl

theorem statuses_doneHandler (s : St) :
    (doneHandler s).statuses = finishActive s.statuses := by
  unfold doneHandler
  rw [statuses_updateReportDisplay]

theorem nextAgent_ne (x y : Stage) (h : nextAgent x = some y) : y ≠ x := by
  cases x <;> cases y <;> revert h <;> decide

theorem authorSection_finish (ev : Json) (s : St) (auth : List Char) (x : Stage)
    (hauth : ev.getF (sl "author") = some (Json.str auth))
    (hne : auth ≠ [])
    (hres : toStage (resolveAgentId auth) = some x)
    (hfin : isFinish ev = true) :
    authorSection ev s =
      ({ s with statuses :=
          (match nextAgent x with
           | some y => promoteIfIdle (s.statuses.set x .completed) y
           | none => s.statuses.set x .completed) }, false) := by
  have ht : jsTruthy (Json.str auth) = true := by
    cases auth
    · exact absurd rfl hne
    · rfl
  simp only [authorSection, hauth, ht, hres, hfin, if_true]

/-- C1: over any decoded-event sequence of one run, a completed stage stays
completed through event processing and stream-end handling, and an active
stage is never returned to not-started. -/
theorem c1_no_demotion (evs : List Json) (s : St) (g : Stage) :
    (s.statuses.get g = .completed →
      (runEvents evs s).statuses.get g = .completed ∧
      (doneHandler (runEvents evs s)).statuses.get g = .completed) ∧
    (s.statuses.get g = .active →
      (runEvents evs s).statuses.get g ≠ .waiting ∧
      (doneHandler (runEvents evs s)).statuses.get g ≠ .waiting) := by
  have hrun := statMono_runEvents evs s g
  have hfin : StatMono (runEvents evs s).statuses
      (doneHandler (runEvents evs s)).statuses := by
    rw [statuses_doneHandler]
    exact statMono_finishActive _
  constructor
  · intro h
    rw [h] at hrun
    simp only [srank] at hrun
    have e1 := srank_two_imp _ hrun
    have h3 : 2 ≤ srank ((doneHandler (runEvents evs s)).statuses.get g) :=
      le_trans hrun (hfin g)
    exact ⟨e1, srank_two_imp _ h3⟩
  · intro h
    rw [h] at hrun
    simp only [srank] at hrun
    have e1 := srank_one_imp _ hrun
    have h3 : 1 ≤ srank ((doneHandler (runEvents evs s)).statuses.get g) :=
      le_trans hrun (hfin g)
    exact ⟨e1, srank_one_imp _ h3⟩

/-- Witness for C1 at a concrete run state: with parser completed and
modeler active, processing a further completion event and finishing the
stream leaves parser completed and never returns modeler to waiting. -/
theorem c1_no_demotion_witness :
    (runEvents [evParserStop] c1WitSt).statuses.get .parser = .completed ∧
    (doneHandler (runEvents [evParserStop] c1WitSt)).statuses.get .modeler ≠ .waiting :=
  ⟨((c1_no_demotion [evParserStop] c1WitSt .parser).1 rfl).1,
   ((c1_no_demotion [evParserStop] c1WitSt .modeler).2 rfl).2⟩

/-- C6 counterexample: the very first event of a run carrying
`finishReason: STOP` for the parser moves parser directly from not-started
to completed, never passing through active. -/
theorem c6_skip_active_counterexample :
    initSt.statuses.get .parser = .waiting ∧
    (processStreamEvent evParserStop initSt).1.statuses.get .parser = .completed :=
  ⟨rfl, rfl⟩

/-- C6 amended: every transition caused by event processing or stream
completion moves forward along not-started → active → completed (no
backward transition), though a completion event may skip the active
state. -/
theorem c6_forward_only (evs : List Json) (s : St) (g : Stage) :
    srank (s.statuses.get g) ≤ srank ((runEvents evs s).statuses.get g) ∧
    srank ((runEvents evs s).statuses.get g) ≤
      srank ((doneHandler (runEvents evs s)).statuses.get g) := by
  refine ⟨statMono_runEvents evs s g, ?_⟩
  have hfin : StatMono (runEvents evs s).statuses
      (doneHandler (runEvents evs s)).statuses := by
    rw [statuses_doneHandler]
    exact statMono_finishActive _
  exact hfin g

/-- C3: a completion event resolving to stage `x` with static successor
`y` promotes `y` to active exactly when `y` is still not-started, and
leaves `y` unchanged when `y` is already active or completed. -/
theorem c3_successor_promotion (ev : Json) (s : St) (auth : List Char) (x y : Stage)
    (hauth : ev.getF (sl "author") = some (Json.str auth))
    (hne : auth ≠ [])
    (hres : toStage (resolveAgentId auth) = some x)
    (hfin : isFinish ev = true)
    (hnext : nextAgent x = some y) :
    (s.statuses.get y = .waiting →
      (processStreamEvent ev s).1.statuses.get y = .active) ∧
    (s.statuses.get y ≠ .waiting →
      (processStreamEvent ev s).1.statuses.get y = s.statuses.get y) := by
  have hxy : y ≠ x := nextAgent_ne x y hnext
  have hA := authorSection_finish ev s auth x hauth hne hres hfin
  rw [hnext] at hA
  have hps : (processStreamEvent ev s).1 =
      (restSections ev
        { s with statuses := promoteIfIdle (s.statuses.set x .completed) y }).1 := by
    unfold processStreamEvent thenSec
    rw [hA]
  have hmidy : (promoteIfIdle (s.statuses.set x .completed) y).get y =
      if s.statuses.get y = .waiting then .active else s.statuses.get y := by
    rw [promoteIfIdle_get, get_set]
    simp [hxy]
  have hop := onlyProm_restSections ev
    { s with statuses := promoteIfIdle (s.statuses.set x .completed) y }
  constructor
  · intro hw
    have hact : (promoteIfIdle (s.statuses.set x .completed) y).get y = .active := by
      rw [hmidy, if_pos hw]
    have hkeep := onlyProm_nonwaiting hop y (by rw [hact]; exact fun h => nomatch h)
    rw [hps, hkeep, hact]
  · intro hw
    have hsame : (promoteIfIdle (s.statuses.set x .completed) y).get y =
        s.statuses.get y := by
      rw [hmidy, if_neg hw]
    have hkeep := onlyProm_nonwaiting hop y (by rw [hsame]; exact hw)
    rw [hps, hkeep, hsame]

/-- Witness for C3: the parser-completion event promotes the not-started
modeler to active. -/
theorem c3_successor_promotion_witness :
    (processStreamEvent evParserStop initSt).1.statuses.get .modeler = .active :=
  (c3_successor_promotion evParserStop initSt
      (sl "architecture_parser_agent") .parser .modeler
      rfl (by decide) rfl rfl rfl).1 rfl

/-! ## Decoder reassembly lemmas -/

theorem extractLines_append (x y : List Char) :
    extractLines (x ++ y) =
      ((extractLines x).1 ++ (extractLines ((extractLines x).2 ++ y)).1,
       (extractLines ((extractLines x).2 ++ y)).2) := by
  induction x with
  | nil => simp [extractLines]
  | cons c cs ih =>
    rcases hcs : extractLines cs with ⟨ls, r⟩
    rw [hcs] at ih
    rcases hr : extractLines (r ++ y) with ⟨ls2, r2⟩
    rw [hr] at ih
    simp only at ih
    by_cases hc : c = '\n'
    · subst hc
      simp only [List.cons_append, extractLines, if_pos rfl, hcs]
      simp [ih, hr]
    · cases ls with
      | nil =>
        cases ls2 with
        | nil =>
          simp only [List.cons_append, extractLines, if_neg hc, hcs, hr]
          simp [List.append_eq, ih]
        | cons m ms =>
          simp only [List.cons_append, extractLines, if_neg hc, hcs, hr]
          simp [List.append_eq, ih]
      | cons l tl =>
        simp only [List.cons_append, extractLines, if_neg hc, hcs, hr]
        simp [List.append_eq, ih]

theorem extractLines_rest_no_newline (x : List Char) :
    '\n' ∉ (extractLines x).2 := by
  induction x with
  | nil => simp [extractLines]
  | cons c cs ih =>
    rcases hcs : extractLines cs with ⟨ls, r⟩
    rw [hcs] at ih
    simp only at ih
    by_cases hc : c = '\n'
    · subst hc
      simpa [extractLines, hcs] using ih
    · cases ls with
      | nil =>
        simp only [extractLines, if_neg hc, hcs]
        intro hmem
        rcases List.mem_cons.mp hmem with h | h
        · exact hc h.symm
        · exact ih h
      | cons l tl =>
        simpa [extractLines, if_neg hc, hcs] using ih

theorem extractLines_no_newline (x : List Char) (h : '\n' ∉ x) :
    extractLines x = ([], x) := by
  induction x with
  | nil => rfl
  | cons c cs ih =>
    have hc : c ≠ '\n' := fun he => h (he ▸ List.mem_cons_self c cs)
    have hcs : '\n' ∉ cs := fun hm => h (List.mem_cons_of_mem c hm)
    simp [extractLines, if_neg hc, ih hcs]

theorem decodeChunksGo_join (cs : List (List Char)) (buf : List Char)
    (hbuf : '\n' ∉ buf) :
    decodeChunksGo buf cs =
      (extractLines (buf ++ cs.flatten)).1.filterMap decodeLine := by
  induction cs generalizing buf with
  | nil =>
    simp [decodeChunksGo, extractLines_no_newline buf hbuf]
  | cons c rest ih =>
    have hrem := extractLines_rest_no_newline (buf ++ c)
    have hih := ih (extractLines (buf ++ c)).2 hrem
    simp only [decodeChunksGo, hih, List.flatten_cons]
    rw [show buf ++ (c ++ rest.flatten) = (buf ++ c) ++ rest.flatten by simp,
      extractLines_append (buf ++ c) rest.flatten]
    simp [List.filterMap_append]

/-- C2: the decoder is chunk-boundary independent — any chunking of a byte
stream yields exactly the decoded-event sequence of the whole stream fed
as one chunk, in the same order. -/
theorem c2_chunk_boundary_independent (chunks : List (List Char)) :
    decodeStream chunks = decodeStream [chunks.flatten] ∧
    decodeStream chunks = streamEventsOf chunks.flatten := by
  have h1 : decodeStream chunks =
      (extractLines chunks.flatten).1.filterMap decodeLine := by
    simpa using decodeChunksGo_join chunks [] (by simp)
  have h2 : decodeStream [chunks.flatten] =
      (extractLines chunks.flatten).1.filterMap decodeLine := by
    simpa using decodeChunksGo_join [chunks.flatten] [] (by simp)
  exact ⟨h1.trans h2.symm, h1⟩

theorem extractLines_line (bad rest : List Char) (h : '\n' ∉ bad) :
    extractLines (bad ++ '\n' :: rest) =
      (bad :: (extractLines rest).1, (extractLines rest).2) := by
  induction bad with
  | nil => simp [extractLines]
  | cons c cs ih =>
    have hc : c ≠ '\n' := fun he => h (he ▸ List.mem_cons_self c cs)
    have hcs : '\n' ∉ cs := fun hm => h (List.mem_cons_of_mem c hm)
    simp [extractLines, if_neg hc, ih hcs]

theorem decodeLine_malformed (bad : List Char)
    (hdata : startsWithL (sl "data: ") (trimL bad) = true)
    (hparse : parseJsonStr ((trimL bad).drop 6) = none) :
    decodeLine bad = none := by
  unfold decodeLine
  simp only [hdata, if_true]
  split
  · rfl
  · exact hparse

/-- C4: a single line whose `data: ` payload is not parseable JSON is
silently discarded by the (total) decoding loop, and every well-formed
frame elsewhere in the stream still yields its decoded event. -/
theorem c4_malformed_line_skipped (pre bad post : List Char)
    (hpre : (extractLines pre).2 = [])
    (hbad : '\n' ∉ bad)
    (hdata : startsWithL (sl "data: ") (trimL bad) = true)
    (hparse : parseJsonStr ((trimL bad).drop 6) = none) :
    streamEventsOf (pre ++ bad ++ '\n' :: post) =
      streamEventsOf pre ++ streamEventsOf post := by
  unfold streamEventsOf
  rw [List.append_assoc, extractLines_append pre (bad ++ '\n' :: post), hpre]
  simp only [List.nil_append]
  rw [extractLines_line bad post hbad]
  simp [List.filterMap_append, decodeLine_malformed bad hdata hparse]

/-- Witness for C4 on a concrete three-line stream. -/
theorem c4_malformed_line_skipped_witness :
    streamEventsOf (c4Pre ++ c4Bad ++ '\n' :: c4Post) =
      streamEventsOf c4Pre ++ streamEventsOf c4Post :=
  c4_malformed_line_skipped c4Pre c4Bad c4Post (by decide) (by decide)
    (by decide) (by rfl)

/-! ## Concrete-scenario theorems -/

/-- C5 counterexample: in the two-frame scenario the orchestrator is not
left unaffected — `streamQuery` activates it at stream open and the
stream-end promotion completes it, while it was not-started at run
start. -/
theorem c5_orchestrator_affected :
    (startAnalysisReset initSt).statuses.get .orchestrator = .waiting ∧
    c5Final.statuses.get .orchestrator = .completed := ⟨rfl, rfl⟩

/-- C5 amended: the scenario yields parser completed and modeler active
after the second frame; at stream end modeler (and the orchestrator, which
was activated at stream open) are promoted to completed; builder and
verifier stay not-started. -/
theorem c5_scenario_statuses :
    c5Mid.statuses.get .parser = .completed ∧
    c5Mid.statuses.get .modeler = .active ∧
    c5Final.statuses.get .parser = .completed ∧
    c5Final.statuses.get .modeler = .completed ∧
    c5Final.statuses.get .builder = .waiting ∧
    c5Final.statuses.get .verifier = .waiting ∧
    c5Final.statuses.get .orchestrator = .completed :=
  ⟨rfl, rfl, rfl, rfl, rfl, rfl, rfl⟩

/-- C7 counterexample: starting a new run does not clear the artifact
pointer — a path left by a previous run survives `startAnalysis`'s
reset. -/
theorem c7_pdf_path_survives_run_start :
    (startAnalysisReset c7Prev).fullReport = [] ∧
    (startAnalysisReset c7Prev).pdfFilePath = some (Json.str (sl "/tmp/report.pdf")) ∧
    (startAnalysisReset c7Prev).pdfFilePath ≠ none :=
  ⟨rfl, rfl, fun h => Option.noConfusion h⟩

/-- C7 amended: run start clears the report buffer and resets the stages
but leaves the artifact pointer exactly as the previous run left it; only
the explicit reset clears the artifact pointer. -/
theorem c7_run_start_clears_report_only (s : St) :
    (startAnalysisReset s).fullReport = [] ∧
    (startAnalysisReset s).statuses = allWaiting ∧
    (startAnalysisReset s).pdfFilePath = s.pdfFilePath ∧
    (resetAnalysisState s).fullReport = [] ∧
    (resetAnalysisState s).pdfFilePath = none :=
  ⟨rfl, rfl, rfl, rfl, rfl⟩

/-- C8 counterexample: when the abort is raised by starting a new run
(the other abort site, `startAnalysis` lines 186-188), the cancelled run's
catch path leaves the artifact pointer holding the cancelled run's value —
not the post-reset `none` — so the buffers are not in the post-reset
state on that cancellation path. -/
theorem c8_new_run_cancel_keeps_pdf :
    (cancelViaNewRun c7Prev).pdfFilePath = some (Json.str (sl "/tmp/report.pdf")) ∧
    (cancelViaNewRun c7Prev).pdfFilePath ≠ (resetAnalysisState c7Prev).pdfFilePath ∧
    (resetAnalysisState c7Prev).pdfFilePath = none :=
  ⟨rfl, fun h => Option.noConfusion h, rfl⟩

/-- C8 amended: cancelling mid-stream never writes error text to the
report display — the `AbortError` is swallowed by both catch sites on
either abort path.  When the cancellation comes from the reset control,
the report buffer and artifact pointer end in the post-reset state; when
it comes from starting a new run, the run start clears the report buffer
and stages but the artifact pointer keeps the cancelled run's value. -/
theorem c8_cancel_no_error (s : St) :
    (cancelRun s = resetAnalysisState s ∧
     (cancelRun s).display = Display.placeholder ∧
     (cancelRun s).fullReport = [] ∧
     (cancelRun s).pdfFilePath = none) ∧
    ((cancelViaNewRun s).display = Display.placeholder ∧
     (cancelViaNewRun s).fullReport = [] ∧
     (cancelViaNewRun s).statuses = allWaiting ∧
     (cancelViaNewRun s).pdfFilePath = s.pdfFilePath) :=
  ⟨⟨rfl, rfl, rfl, rfl⟩, ⟨rfl, rfl, rfl, rfl⟩⟩

/-- C9: accumulating the fragments "# Title\n\n" and "**bold**" and
rendering at stream end produces display output structurally equivalent to
the h1-plus-paragraph target. -/
theorem c9_markdown_roundtrip :
    c9Final.display = Display.html (mdToHtml (sl "# Title\n\n**bold**")) ∧
    specStructEquiv (mdToHtml (sl "# Title\n\n**bold**")) c9Target :=
  ⟨rfl, by unfold specStructEquiv; rfl⟩

/-- C10 counterexample: the unparsable tool-call response does throw out of
`processStreamEvent`, but the read loop's per-line catch swallows it: the
loop keeps running (the later frame's content "A" is accumulated and
rendered) and nothing is written as an error. -/
theorem c10_swallowed_counterexample :
    (processStreamEvent c10BadEvent initSt).2 = true ∧
    c10Final.fullReport = sl "A" ∧
    c10Final.display = Display.html (mdToHtml (sl "A")) :=
  ⟨rfl, rfl, rfl⟩

/-- C10 amended: from any page state, the bad frame's event processing
throws (the unguarded response parse), and the per-line handler catches
it, leaving the state as of the throw point and continuing the loop. -/
theorem c10_throw_is_caught (s : St) :
    (processStreamEvent c10BadEvent s).2 = true ∧
    processLine c10BadLine s = (processStreamEvent c10BadEvent s).1 :=
  ⟨rfl, rfl⟩
